import Mathlib

/-!
Shallow embedding of the QX-matrix resolution engine of `src/app.py`
(class `QXMatrixAnalyzer`) and proofs about it.

Modelling conventions:
* The pandas DataFrame `self.data` is modelled by `QX.Grid`: a row count, a
  column count and a total cell function; a cell is `none` when the
  spreadsheet cell is NaN (absent) and `some s` when it holds a value whose
  Python `str()` is `s`.
* A positional access `self.data.iloc[r, c]` raises `IndexError` when
  `r ≥ nrows` or `c ≥ ncols`; every function whose source can perform such
  an unguarded access is embedded in `Except Unit`, with `.error ()` exactly
  where the Python code would raise.
* Python `str.strip` is `pyStrip`, `str.lower` is `pyLower`, `str(x)` on a
  possibly-NaN cell is `pyStr` (Python renders NaN as the string "nan").
* The vectorised pandas containment test of `find_defect_column`
  (`.str.lower().str.contains(...)`) is modelled as case-insensitive
  substring containment.
* The xlrd colour channel of `get_cell_color` is modelled abstractly by
  `ColorSource : String → Nat → Option Nat`, mapping a (sub-assembly label,
  column) pair to the background colour index, `none` when the colour is
  unavailable — exactly the `(None, None)` degraded return of the source.
-/

namespace QX

/-- A character counted as whitespace by `str.strip`. -/
def isSpaceChar (c : Char) : Bool :=
  c == ' ' || c == '\t' || c == '\n' || c == '\r'

/-- Strip on a character list: drop leading and trailing whitespace. -/
def stripL (l : List Char) : List Char :=
  ((l.dropWhile isSpaceChar).reverse.dropWhile isSpaceChar).reverse

/-- Python `str.strip()`. -/
def pyStrip (s : String) : String :=
  ⟨stripL s.data⟩

/-- ASCII lowering of one character, Python `str.lower` on the names used here. -/
def lowerChar (c : Char) : Char :=
  if 'A' ≤ c ∧ c ≤ 'Z' then Char.ofNat (c.toNat + 32) else c

/-- Python `str.lower()`. -/
def pyLower (s : String) : String :=
  ⟨s.data.map lowerChar⟩

/-- Does `l` start with `p`? -/
def listStartsWith : List Char → List Char → Bool
  | _, [] => true
  | [], _ :: _ => false
  | a :: as, b :: bs => a == b && listStartsWith as bs

/-- Substring containment: does `hay` contain `need` as a contiguous run? -/
def listContainsSub : List Char → List Char → Bool
  | [], need => need.isEmpty
  | a :: t, need => listStartsWith (a :: t) need || listContainsSub t need

/-- A cell value: `none` is NaN/absent, `some s` holds the stringified value. -/
abbrev Cell := Option String

/-- Python `str(x)` on a cell; `str(nan)` is `"nan"`. -/
def pyStr : Cell → String
  | none => "nan"
  | some s => s

/-- The decoded spreadsheet (`self.data`): shape plus a total cell map.
Out-of-bounds coordinates are never consulted by the embedding without the
same bounds tests the pandas accesses perform. -/
structure Grid where
  nrows : Nat
  ncols : Nat
  cells : Nat → Nat → Cell

/-- The four relationship markers of the matrix (`['ê', 'è', 'ç', 'ª']`). -/
def markers : List String := ["ê", "è", "ç", "ª"]

/-- The two component-to-parameter markers (`['è', 'ê']`). -/
def pmarkers : List String := ["è", "ê"]

/-- The colour channel: (row label, column) to background colour index,
`none` when colour information is unavailable. -/
abbrev ColorSource := String → Nat → Option Nat

/-- A fully degraded colour source: every lookup is unavailable. -/
def csNone : ColorSource := fun _ _ => none

/-- One parameter record as built by `get_parametres`:
`{'name': …, 'value': …, 'components': …}`. -/
structure Param where
  name : String
  value : String
  components : List String
deriving DecidableEq

/-- Does column `c` of the defect row match `name`? —
`notna ∧ lower(str(cell)) contains lower(name)` (row 15, untrimmed). -/
def defMatchB (g : Grid) (name : String) (c : Nat) : Bool :=
  match g.cells 15 c with
  | some s => listContainsSub (pyLower s).data (pyLower name).data
  | none => false

/-- `find_defect_column`: first column of row 15 whose cell contains
`defect_name` case-insensitively; `none` when row 15 is absent or nothing
matches. -/
def find_defect_column (g : Grid) (name : String) : Option Nat :=
  if 15 < g.nrows then (List.range g.ncols).find? (defMatchB g name) else none

/-- `list_all_defects`: every non-NaN, non-blank cell of row 15 at column
78 or later, in column order, trimmed. -/
def list_all_defects (g : Grid) : List (Nat × String) :=
  if 15 < g.nrows then
    ((List.range g.ncols).filter (fun c =>
        decide (78 ≤ c) &&
        (match g.cells 15 c with
         | some s => pyStrip s != ""
         | none => false))).map
      (fun c => (c, pyStrip (pyStr (g.cells 15 c))))
  else []

/-- The candidate produced by one iteration of the marker loop of
`get_sous_ensembles` at `row`: the trimmed label of `row` when the cell at
(`row`, `defect_col`) is in bounds, non-NaN and trims to `ç`, and the label
cell of column 75 is in bounds, non-NaN and trims non-empty. -/
def subCand (g : Grid) (dc row : Nat) : Option String :=
  if row < g.nrows ∧ dc < g.ncols then
    match g.cells row dc with
    | some s =>
      if pyStrip s = "ç" then
        match (if 75 < g.ncols then g.cells row 75 else none) with
        | some t => if pyStrip t ≠ "" then some (pyStrip t) else none
        | none => none
      else none
    | none => none
  else none

/-- One step of the marker loop of `get_sous_ensembles`: append the
candidate when it is not already present. -/
def subStep (g : Grid) (dc : Nat) (acc : List String) (row : Nat) : List String :=
  match subCand g dc row with
  | some n => if n ∈ acc then acc else acc ++ [n]
  | none => acc

/-- The marker loop of `get_sous_ensembles` over rows 3–14 (`range(3, 15)`). -/
def subLoop (g : Grid) (dc : Nat) : List String :=
  (List.range' 3 12).foldl (subStep g dc) []

/-- `get_sous_ensembles`: the marker loop, and on zero matches the fallback
read of cell (13, 75) — which is guarded against the column count only, so
it raises (`.error`) when column 75 exists but row 13 does not. -/
def get_sous_ensembles (g : Grid) (dc : Nat) : Except Unit (List String) :=
  let l := subLoop g dc
  if l.isEmpty then
    if 75 < g.ncols then
      if 13 < g.nrows then
        match g.cells 13 75 with
        | some t => .ok [pyStrip t]
        | none => .ok []
      else .error ()
    else .ok []
  else .ok l

/-- The sub-assembly row search shared by `get_composants` and
`get_parametres`: scan the given rows for a label-column cell trimming to
`name`; reading `iloc[row, 75]` raises when column 75 exists but the row
does not. -/
def findSubRow (g : Grid) (name : String) : List Nat → Except Unit (Option Nat)
  | [] => .ok none
  | r :: rs =>
    if 75 < g.ncols then
      if r < g.nrows then
        match g.cells r 75 with
        | some t => if pyStrip t = name then .ok (some r) else findSubRow g name rs
        | none => findSubRow g name rs
      else .error ()
    else findSubRow g name rs

/-- The component loop of `get_composants` over columns 0–73: when the
sub-assembly row's cell trims to a marker, read the display name from row
15 (an unguarded `iloc[15, col]`, raising when row 15 is absent) and keep
it when non-empty and not itself a marker. -/
def compLoop (g : Grid) (row : Nat) : List Nat → List String → Except Unit (List String)
  | [], acc => .ok acc
  | col :: rest, acc =>
    if col < g.ncols then
      if pyStrip (pyStr (g.cells row col)) ∈ markers then
        if 15 < g.nrows then
          match g.cells 15 col with
          | some comp =>
            if pyStrip comp ∉ markers ∧ pyStrip comp ≠ "" then
              compLoop g row rest (acc ++ [pyStrip comp])
            else compLoop g row rest acc
          | none => compLoop g row rest acc
        else .error ()
      else compLoop g row rest acc
    else compLoop g row rest acc

/-- `get_composants`: find the sub-assembly row among rows 3–13, then run
the component loop over columns 0–73. -/
def get_composants (g : Grid) (name : String) : Except Unit (List String) :=
  match findSubRow g name (List.range' 3 11) with
  | .error e => .error e
  | .ok none => .ok []
  | .ok (some row) => compLoop g row (List.range 74) []

/-- The marker columns of a sub-assembly row (`component_cols` of
`get_parametres`): columns 0–73, in bounds, whose cell trims to a marker. -/
def componentCols (g : Grid) (row : Nat) : List Nat :=
  (List.range 74).filter (fun col =>
    decide (col < g.ncols ∧ pyStrip (pyStr (g.cells row col)) ∈ markers))

/-- The linked-components list of one parameter row: for each marker column
of the sub-assembly, keep the row-15 display name when the parameter row's
cell trims to `è` or `ê` and the name is non-empty and not a marker. -/
def linkedComponents (g : Grid) (ccols : List Nat) (row : Nat) : List String :=
  ccols.filterMap (fun col =>
    if col < g.ncols then
      match g.cells row col with
      | some s =>
        if pyStrip s ∈ pmarkers then
          match (if col < g.ncols then g.cells 15 col else none) with
          | some comp =>
            if pyStrip comp ∉ markers ∧ pyStrip comp ≠ "" then
              some (pyStrip comp)
            else none
          | none => none
        else none
      | none => none
    else none)

/-- One row of the parameter loop of `get_parametres`: name from column 75,
value from column 76 (empty string when absent), and the parameter is
emitted only when the linked list is non-empty and the trimmed name is
non-empty and not a marker string. -/
def paramOfRow (g : Grid) (ccols : List Nat) (row : Nat) : Option Param :=
  match (if 75 < g.ncols then g.cells row 75 else none) with
  | none => none
  | some n =>
    let pn := pyStrip n
    let pv := match (if 76 < g.ncols then g.cells row 76 else none) with
      | some v => pyStrip v
      | none => ""
    let linked := linkedComponents g ccols row
    if linked ≠ [] ∧ pn ∉ markers ∧ pn ≠ "" then some ⟨pn, pv, linked⟩ else none

/-- `get_parametres`: empty for a falsy name, else find the sub-assembly
row, collect its marker columns, and scan rows 17 to the end of the grid. -/
def get_parametres (g : Grid) (name : String) : Except Unit (List Param) :=
  if name = "" then .ok []
  else
    match findSubRow g name (List.range' 3 11) with
    | .error e => .error e
    | .ok none => .ok []
    | .ok (some row) =>
      .ok ((List.range' 17 (g.nrows - 17)).filterMap
        (paramOfRow g (componentCols g row)))

/-- Concatenate the results of a fallible list-valued function over a list,
propagating the first failure — the `extend` loops of `analyze_defect` and
the nested loops of `get_filtered_hierarchy`. -/
def exceptConcatMap {α β : Type} (f : α → Except Unit (List β)) :
    List α → Except Unit (List β)
  | [] => .ok []
  | x :: xs =>
    match f x with
    | .error e => .error e
    | .ok h =>
      match exceptConcatMap f xs with
      | .error e => .error e
      | .ok t => .ok (h ++ t)

/-- First-occurrence deduplication with an explicit seen list, the
`seen`/append pattern of `analyze_defect` and `get_filtered_hierarchy`. -/
def dedupFirstAux (seen : List String) : List String → List String
  | [] => []
  | x :: xs =>
    if x ∈ seen then dedupFirstAux seen xs else x :: dedupFirstAux (x :: seen) xs

/-- First-occurrence deduplication. -/
def dedupFirst (l : List String) : List String := dedupFirstAux [] l

/-- The successful payload of `analyze_defect`. -/
structure AnalysisResult where
  defect_name : String
  defect_column : Nat
  sous_ensembles : List String
  composants : List String
  parametres : List Param
deriving DecidableEq

/-- The two shapes `analyze_defect` returns: the error-tagged dictionary
(`'error'` key) or the full result dictionary. -/
inductive AnalyzeOut where
  | err (defect_name : String)
  | res (r : AnalysisResult)
deriving DecidableEq

/-- `analyze_defect`: locate the defect column (error-tagged result when
absent), resolve sub-assemblies, then concatenate per-sub-assembly
components (deduplicated at the end) and parameters (not deduplicated). -/
def analyze_defect (g : Grid) (name : String) : Except Unit AnalyzeOut :=
  match find_defect_column g name with
  | none => .ok (.err name)
  | some dc =>
    match get_sous_ensembles g dc with
    | .error e => .error e
    | .ok sous =>
      match exceptConcatMap (get_composants g) sous with
      | .error e => .error e
      | .ok comps =>
        match exceptConcatMap (get_parametres g) sous with
        | .error e => .error e
        | .ok params =>
          .ok (.res ⟨name, dc, sous, dedupFirst comps, params⟩)

/-- The result dictionary of `get_filtered_hierarchy`. -/
structure FilteredResult where
  defect_name : String
  defect_column : Option Nat
  sous_ensembles : List String
  bonnes_composants : List String
  parametres : List Param
deriving DecidableEq

/-- Does the row-15 cell of `col` trim to the component name? — the
membership test of the `comp_cols` scan of `get_filtered_hierarchy`. -/
def cellKeep (g : Grid) (cn : String) (col : Nat) : Bool :=
  match g.cells 15 col with
  | some s => pyStrip s == cn
  | none => false

/-- The `comp_cols` scan of `get_filtered_hierarchy` over columns 0–73:
an unguarded `iloc[15, col]` per column, raising when row 15 or the column
is out of bounds. -/
def compColsLoop (g : Grid) (cn : String) : List Nat → Except Unit (List Nat)
  | [] => .ok []
  | col :: rest =>
    if 15 < g.nrows ∧ col < g.ncols then
      match compColsLoop g cn rest with
      | .error e => .error e
      | .ok t => .ok (if cellKeep g cn col then col :: t else t)
    else .error ()

/-- The inner loop of the colour filter for one (sub-assembly, component)
pair: the component is appended once for every column whose colour equals
the sub-assembly's reference colour `cidx`. -/
def bonnesForComp (g : Grid) (cs : ColorSource) (se : String) (cidx : Option Nat)
    (comp : String) : Except Unit (List String) :=
  match compColsLoop g (pyStrip comp) (List.range 74) with
  | .error e => .error e
  | .ok cols => .ok ((cols.filter (fun cc => cs se cc == cidx)).map (fun _ => comp))

/-- The colour filter for one sub-assembly: its reference colour is looked
up at the defect column, then every candidate component is tested. -/
def bonnesForSe (g : Grid) (cs : ColorSource) (dc : Nat) (comps : List String)
    (se : String) : Except Unit (List String) :=
  exceptConcatMap (bonnesForComp g cs se (cs se dc)) comps

/-- `get_filtered_hierarchy`: on a not-found defect an empty well-formed
result; otherwise colour-filter the components and keep only the parameters
whose linked components intersect the validated list, each reduced to that
intersection. -/
def get_filtered_hierarchy (g : Grid) (name : String) (cs : ColorSource) :
    Except Unit FilteredResult :=
  match analyze_defect g name with
  | .error e => .error e
  | .ok (.err _) => .ok ⟨name, none, [], [], []⟩
  | .ok (.res r) =>
    match exceptConcatMap (bonnesForSe g cs r.defect_column r.composants)
        r.sous_ensembles with
    | .error e => .error e
    | .ok bl =>
      let bonnesU := dedupFirst bl
      .ok ⟨name, some r.defect_column, r.sous_ensembles, bonnesU,
        r.parametres.filterMap (fun p =>
          let li := p.components.filter (fun c => decide (c ∈ bonnesU))
          if li ≠ [] then some ⟨p.name, p.value, li⟩ else none)⟩

/-- Cell map of the witness grid `g10`. -/
def g10cells (r c : Nat) : Cell :=
  if r = 3 ∧ c = 78 then some "ç"
  else if r = 4 ∧ c = 78 then some "ç"
  else if r = 3 ∧ c = 75 then some "Housing"
  else if r = 4 ∧ c = 75 then some "Frame"
  else if r = 3 ∧ c = 10 then some "ê"
  else if r = 4 ∧ c = 10 then some "ê"
  else if r = 15 ∧ c = 10 then some "Bolt"
  else if r = 15 ∧ c = 78 then some "Crack"
  else if r = 17 ∧ c = 75 then some "Torque"
  else if r = 17 ∧ c = 76 then some "10Nm"
  else if r = 17 ∧ c = 10 then some "è"
  else none

/-- A grid with a defect "Crack" at (15, 78), two sub-assemblies "Housing"
and "Frame" both marked `ç` at column 78 and both linked by `ê` to the
component "Bolt" of column 10, and one parameter row 17 linked by `è` to
column 10. -/
def g10 : Grid := ⟨18, 80, g10cells⟩

/-- A 5-row, 76-column grid of entirely absent cells. -/
def gSmall : Grid := ⟨5, 76, fun _ _ => none⟩

/-- A 14-row, 76-column grid whose only value is a whitespace cell at
(13, 75). -/
def gc5 : Grid := ⟨14, 76, fun r c => if r = 13 ∧ c = 75 then some " " else none⟩

/-- Cell map of `gc6`. -/
def gc6cells (r c : Nat) : Cell :=
  if r = 3 ∧ c = 75 then some "Housing"
  else if r = 3 ∧ c = 10 then some "ê"
  else if r = 15 ∧ c = 10 then some "Bolt"
  else if r = 17 ∧ c = 75 then some "ç"
  else if r = 17 ∧ c = 76 then some "V"
  else if r = 17 ∧ c = 10 then some "è"
  else none

/-- A grid whose parameter row 17 has the marker string `ç` as its name
cell, yet a non-empty linked-components list. -/
def gc6 : Grid := ⟨18, 80, gc6cells⟩

/-- A 16-row, single-column grid whose row-15 cell (column 0) is "Crack". -/
def g2 : Grid := ⟨16, 1, fun r c => if r = 15 ∧ c = 0 then some "Crack" else none⟩

/-- The empty grid. -/
def gEmpty : Grid := ⟨0, 0, fun _ _ => none⟩

/-- The component contributed by one column of the component loop of
`get_composants`: the trimmed row-15 name when the column is in bounds, the
sub-assembly row's cell trims to a marker, row 15 exists, and the name is
present, not a marker and non-empty. In a non-raising run of `compLoop`
the `15 < nrows` test is exactly where the source would have raised. -/
def compCand (g : Grid) (row col : Nat) : Option String :=
  if col < g.ncols then
    if pyStrip (pyStr (g.cells row col)) ∈ markers then
      if 15 < g.nrows then
        match g.cells 15 col with
        | some comp =>
          if pyStrip comp ∉ markers ∧ pyStrip comp ≠ "" then
            some (pyStrip comp)
          else none
        | none => none
      else none
    else none
  else none

/-- Claim-side single-pass linked-components candidate for one column of a
parameter row: the column must be in bounds and a marker column of the
sub-assembly row `srow`, the parameter row's cell must trim to `è` or `ê`,
and the row-15 name must be present, not a marker and non-empty. -/
def specLinkedCand (g : Grid) (srow row col : Nat) : Option String :=
  if col < g.ncols ∧ pyStrip (pyStr (g.cells srow col)) ∈ markers then
    match g.cells row col with
    | some s =>
      if pyStrip s ∈ pmarkers then
        match g.cells 15 col with
        | some comp =>
          if pyStrip comp ∉ markers ∧ pyStrip comp ≠ "" then
            some (pyStrip comp)
          else none
        | none => none
      else none
    | none => none
  else none

/-- Claim-side linked-components list of one parameter row: one pass over
columns 0–73. -/
def specLinked (g : Grid) (srow row : Nat) : List String :=
  (List.range 74).filterMap (specLinkedCand g srow row)

/-- Claim-side parameter of one row: name from column 75, value from column
76 (empty when absent), linked components from `specLinked`; emitted only
when the linked list is non-empty and the trimmed name is non-empty and not
a marker string. -/
def specParamRow (g : Grid) (srow row : Nat) : Option Param :=
  match (if 75 < g.ncols then g.cells row 75 else none) with
  | none => none
  | some n =>
    let pn := pyStrip n
    let pv := match (if 76 < g.ncols then g.cells row 76 else none) with
      | some v => pyStrip v
      | none => ""
    let linked := specLinked g srow row
    if linked ≠ [] ∧ pn ∉ markers ∧ pn ≠ "" then some ⟨pn, pv, linked⟩ else none

/-- Claim-side parameter list: rows 17 to the end of the grid, in row
order, at most one parameter per row. -/
def specParams (g : Grid) (srow : Nat) : List Param :=
  (List.range' 17 (g.nrows - 17)).filterMap (specParamRow g srow)

/-! ### Lemmas about stripping -/

theorem dropWhile_length_le (p : Char → Bool) :
    ∀ l : List Char, (l.dropWhile p).length ≤ l.length := by
  intro l
  induction l with
  | nil => simp [List.dropWhile]
  | cons a t ih =>
    by_cases h : p a
    · simp only [List.dropWhile, h]
      exact Nat.le_succ_of_le ih
    · simp [List.dropWhile, h]

theorem dropWhile_idem (p : Char → Bool) (l : List Char) :
    (l.dropWhile p).dropWhile p = l.dropWhile p := by
  induction l with
  | nil => rfl
  | cons a t ih =>
    by_cases h : p a
    · simp only [List.dropWhile, h]
      exact ih
    · simp [List.dropWhile, h]

theorem dropWhile_append_one (p : Char → Bool) (a : Char) (ha : p a = false) :
    ∀ xs : List Char, List.dropWhile p (xs ++ [a]) = List.dropWhile p xs ++ [a] := by
  intro xs
  induction xs with
  | nil => simp [List.dropWhile, ha]
  | cons x t ih =>
    by_cases h : p x
    · simp only [List.cons_append, List.dropWhile, h]
      exact ih
    · simp [List.dropWhile, h]

theorem head_not_space_of_dropWhile_self (p : Char → Bool) (h : Char) (t : List Char)
    (hm : List.dropWhile p (h :: t) = h :: t) : p h = false := by
  by_cases hp : p h
  · exfalso
    simp only [List.dropWhile, hp] at hm
    have := dropWhile_length_le p t
    rw [hm] at this
    simp at this
  · exact Bool.of_not_eq_true hp

theorem stripL_no_lead (m : List Char)
    (hm : List.dropWhile isSpaceChar m = m) :
    List.dropWhile isSpaceChar
        ((List.dropWhile isSpaceChar m.reverse).reverse)
      = (List.dropWhile isSpaceChar m.reverse).reverse := by
  cases m with
  | nil => simp
  | cons h t =>
    have hph : isSpaceChar h = false := head_not_space_of_dropWhile_self _ h t hm
    have hrev : (h :: t).reverse = t.reverse ++ [h] := by simp
    rw [hrev, dropWhile_append_one _ h hph t.reverse]
    have : (List.dropWhile isSpaceChar t.reverse ++ [h]).reverse
        = h :: (List.dropWhile isSpaceChar t.reverse).reverse := by simp
    rw [this]
    simp [List.dropWhile, hph]

theorem stripL_idem (l : List Char) : stripL (stripL l) = stripL l := by
  unfold stripL
  set k := List.dropWhile isSpaceChar l with hk
  have hkk : List.dropWhile isSpaceChar k = k := by
    rw [hk]; exact dropWhile_idem _ l
  set r := List.dropWhile isSpaceChar k.reverse with hr
  have hrr : List.dropWhile isSpaceChar r = r := by
    rw [hr]; exact dropWhile_idem _ k.reverse
  have hlead : List.dropWhile isSpaceChar r.reverse = r.reverse := by
    have := stripL_no_lead k hkk
    rw [← hr] at this
    exact this
  rw [hlead, List.reverse_reverse, hrr]

theorem pyStrip_idem (s : String) : pyStrip (pyStrip s) = pyStrip s := by
  unfold pyStrip
  have : (String.mk (stripL s.data)).data = stripL s.data := rfl
  rw [this, stripL_idem]

/-! ### Lemmas about first-occurrence deduplication -/

theorem mem_dedupFirstAux (x : String) :
    ∀ (l seen : List String), x ∈ dedupFirstAux seen l ↔ x ∈ l ∧ x ∉ seen := by
  intro l
  induction l with
  | nil => intro seen; simp [dedupFirstAux]
  | cons a t ih =>
    intro seen
    by_cases h : a ∈ seen
    · simp only [dedupFirstAux, if_pos h, ih, List.mem_cons]
      constructor
      · rintro ⟨hx, hs⟩; exact ⟨Or.inr hx, hs⟩
      · rintro ⟨hx | hx, hs⟩
        · exact absurd (hx ▸ h) hs
        · exact ⟨hx, hs⟩
    · simp only [dedupFirstAux, if_neg h, List.mem_cons, ih]
      constructor
      · rintro (rfl | ⟨hx, hs⟩)
        · exact ⟨Or.inl rfl, h⟩
        · exact ⟨Or.inr hx, fun hc => hs (Or.inr hc)⟩
      · rintro ⟨rfl | hx, hs⟩
        · exact Or.inl rfl
        · by_cases hxa : x = a
          · exact Or.inl hxa
          · exact Or.inr ⟨hx, fun hc => hc.elim hxa hs⟩

theorem nodup_dedupFirstAux :
    ∀ (l seen : List String), (dedupFirstAux seen l).Nodup := by
  intro l
  induction l with
  | nil => intro seen; simp [dedupFirstAux]
  | cons a t ih =>
    intro seen
    by_cases h : a ∈ seen
    · simpa [dedupFirstAux, if_pos h] using ih seen
    · simp only [dedupFirstAux, if_neg h, List.nodup_cons]
      refine ⟨?_, ih (a :: seen)⟩
      intro hc
      exact ((mem_dedupFirstAux a t (a :: seen)).1 hc).2 (List.mem_cons_self a seen)

theorem dedupFirstAux_congr :
    ∀ (l s₁ s₂ : List String), (∀ x, x ∈ s₁ ↔ x ∈ s₂) →
      dedupFirstAux s₁ l = dedupFirstAux s₂ l := by
  intro l
  induction l with
  | nil => intro _ _ _; rfl
  | cons a t ih =>
    intro s₁ s₂ hs
    by_cases h : a ∈ s₁
    · rw [dedupFirstAux, if_pos h, dedupFirstAux, if_pos ((hs a).1 h)]
      exact ih s₁ s₂ hs
    · rw [dedupFirstAux, if_neg h, dedupFirstAux, if_neg (fun hc => h ((hs a).2 hc))]
      refine congrArg (a :: ·) (ih _ _ ?_)
      intro x
      simp [List.mem_cons, hs x]

theorem dedupFirstAux_append :
    ∀ (l₁ : List String) (seen l₂ : List String),
      dedupFirstAux seen (l₁ ++ l₂)
        = dedupFirstAux seen l₁ ++ dedupFirstAux (l₁ ++ seen) l₂ := by
  intro l₁
  induction l₁ with
  | nil => intro seen l₂; simp [dedupFirstAux]
  | cons a t ih =>
    intro seen l₂
    by_cases h : a ∈ seen
    · simp only [List.cons_append, dedupFirstAux, if_pos h, List.append_eq]
      rw [ih seen l₂]
      refine congrArg _ (dedupFirstAux_congr _ _ _ ?_)
      intro x
      simp only [List.mem_append, List.mem_cons]
      constructor
      · tauto
      · rintro (rfl | hx | hx)
        · exact Or.inr h
        · exact Or.inl hx
        · exact Or.inr hx
    · simp only [List.cons_append, dedupFirstAux, if_neg h, List.append_eq]
      rw [ih (a :: seen) l₂]
      refine congrArg (a :: ·) (congrArg _ (dedupFirstAux_congr _ _ _ ?_))
      intro x
      simp only [List.mem_append, List.mem_cons]
      tauto

theorem dedupFirstAux_eq_nil :
    ∀ (l seen : List String), (∀ x ∈ l, x ∈ seen) → dedupFirstAux seen l = [] := by
  intro l
  induction l with
  | nil => intro _ _; rfl
  | cons a t ih =>
    intro seen hsub
    rw [dedupFirstAux, if_pos (hsub a (List.mem_cons_self a t))]
    exact ih seen (fun x hx => hsub x (List.mem_cons_of_mem _ hx))

theorem dedupFirstAux_bind_const :
    ∀ (comps : List String) (f : String → List String) (seen : List String),
      comps.Nodup → (∀ c ∈ comps, c ∉ seen) →
      (∀ c ∈ comps, f c ≠ [] ∧ ∀ x ∈ f c, x = c) →
      dedupFirstAux seen (comps.flatMap f) = comps := by
  intro comps
  induction comps with
  | nil => intro f seen _ _ _; rfl
  | cons c cs ih =>
    intro f seen hnd hseen hf
    have hfc := hf c (List.mem_cons_self c cs)
    have hcseen : c ∉ seen := hseen c (List.mem_cons_self c cs)
    rw [List.flatMap_cons, dedupFirstAux_append]
    have hcfc : c ∈ f c := by
      cases hfcl : f c with
      | nil => exact absurd hfcl hfc.1
      | cons z zs =>
        have hz : z = c := hfc.2 z (by rw [hfcl]; exact List.mem_cons_self z zs)
        rw [← hz]
        exact List.mem_cons_self z zs
    have hfcval : dedupFirstAux seen (f c) = [c] := by
      cases hfcl : f c with
      | nil => exact absurd hfcl hfc.1
      | cons z zs =>
        have hz : z = c := hfc.2 z (by rw [hfcl]; exact List.mem_cons_self z zs)
        rw [hz, dedupFirstAux, if_neg hcseen]
        refine congrArg (c :: ·) (dedupFirstAux_eq_nil _ _ ?_)
        intro x hx
        have hxc : x = c := hfc.2 x (by rw [hfcl]; exact List.mem_cons_of_mem _ hx)
        rw [hxc]
        exact List.mem_cons_self c seen
    rw [hfcval]
    have hrest : dedupFirstAux (f c ++ seen) (cs.flatMap f)
        = dedupFirstAux (c :: seen) (cs.flatMap f) := by
      refine dedupFirstAux_congr _ _ _ ?_
      intro x
      simp only [List.mem_append, List.mem_cons]
      constructor
      · rintro (hx | hx)
        · exact Or.inl (hfc.2 x hx)
        · exact Or.inr hx
      · rintro (hx | hx)
        · exact Or.inl (hx ▸ hcfc)
        · exact Or.inr hx
    rw [hrest]
    have hnd' : cs.Nodup := (List.nodup_cons.1 hnd).2
    have hcns : c ∉ cs := (List.nodup_cons.1 hnd).1
    rw [ih f (c :: seen) hnd'
      (fun x hx => by
        simp only [List.mem_cons]
        rintro (h | h)
        · subst h; exact hcns hx
        · exact hseen x (List.mem_cons_of_mem _ hx) h)
      (fun x hx => hf x (List.mem_cons_of_mem _ hx))]
    rfl

/-! ### A characterisation of List.find? over ranges -/

theorem find?_range' (p : Nat → Bool) :
    ∀ (n s c : Nat), (List.range' s n).find? p = some c ↔
      (s ≤ c ∧ c < s + n ∧ p c = true ∧ ∀ k, s ≤ k → k < c → p k = false) := by
  intro n
  induction n with
  | zero =>
    intro s c
    simp only [List.range', List.find?]
    constructor
    · intro h; exact absurd h (by simp)
    · rintro ⟨h1, h2, _, _⟩; omega
  | succ m ih =>
    intro s c
    rw [List.range'_succ]
    by_cases hp : p s
    · simp only [List.find?, hp]
      constructor
      · intro h
        have hc : c = s := by
          have := Option.some.inj h
          omega
        subst hc
        exact ⟨Nat.le_refl _, by omega, hp, fun k hk1 hk2 => by omega⟩
      · rintro ⟨h1, h2, h3, h4⟩
        have hc : c = s := by
          by_contra hne
          have hsc : s < c := by omega
          have := h4 s (Nat.le_refl s) hsc
          rw [hp] at this
          exact absurd this (by simp)
        rw [hc]
    · have hps : p s = false := Bool.of_not_eq_true hp
      simp only [List.find?, hps]
      rw [ih (s + 1) c]
      constructor
      · rintro ⟨h1, h2, h3, h4⟩
        refine ⟨by omega, by omega, h3, ?_⟩
        intro k hk1 hk2
        rcases Nat.eq_or_lt_of_le hk1 with hk | hk
        · rw [← hk]; exact hps
        · exact h4 k hk hk2
      · rintro ⟨h1, h2, h3, h4⟩
        have hcs : c ≠ s := by
          intro hc
          rw [hc] at h3
          rw [hps] at h3
          exact absurd h3 (by simp)
        exact ⟨by omega, by omega, h3, fun k hk1 hk2 => h4 k (by omega) hk2⟩

theorem find?_range (p : Nat → Bool) (n c : Nat) :
    (List.range n).find? p = some c ↔
      (c < n ∧ p c = true ∧ ∀ k, k < c → p k = false) := by
  rw [List.range_eq_range', find?_range' p n 0 c]
  constructor
  · rintro ⟨_, h2, h3, h4⟩
    exact ⟨by omega, h3, fun k hk => h4 k (Nat.zero_le k) hk⟩
  · rintro ⟨h1, h2, h3⟩
    exact ⟨Nat.zero_le c, by omega, h2, fun k _ hk => h3 k hk⟩

/-! ### Lemmas about exceptConcatMap -/

theorem ecm_ok_mem {α β : Type} (f : α → Except Unit (List β)) :
    ∀ (l : List α) (out : List β) (x : β),
      exceptConcatMap f l = .ok out → x ∈ out →
      ∃ a, a ∈ l ∧ ∃ oa, f a = .ok oa ∧ x ∈ oa := by
  intro l
  induction l with
  | nil =>
    intro out x h hx
    simp only [exceptConcatMap] at h
    cases h
    exact absurd hx (List.not_mem_nil x)
  | cons a t ih =>
    intro out x h hx
    simp only [exceptConcatMap] at h
    cases hfa : f a with
    | error e => rw [hfa] at h; cases h
    | ok ha =>
      rw [hfa] at h
      cases hrest : exceptConcatMap f t with
      | error e => rw [hrest] at h; cases h
      | ok ht =>
        rw [hrest] at h
        cases h
        rcases List.mem_append.1 hx with hx | hx
        · exact ⟨a, List.mem_cons_self a t, ha, hfa, hx⟩
        · rcases ih ht x hrest hx with ⟨b, hb, ob, hob, hxb⟩
          exact ⟨b, List.mem_cons_of_mem _ hb, ob, hob, hxb⟩

theorem ecm_eq_flatMap {α β : Type} (f : α → Except Unit (List β)) (fp : α → List β) :
    ∀ (l : List α) (out : List β),
      exceptConcatMap f l = .ok out →
      (∀ x ∈ l, ∀ o, f x = .ok o → o = fp x) →
      out = l.flatMap fp := by
  intro l
  induction l with
  | nil =>
    intro out h _
    simp only [exceptConcatMap] at h
    cases h
    rfl
  | cons a t ih =>
    intro out h hfp
    simp only [exceptConcatMap] at h
    cases hfa : f a with
    | error e => rw [hfa] at h; cases h
    | ok ha =>
      rw [hfa] at h
      cases hrest : exceptConcatMap f t with
      | error e => rw [hrest] at h; cases h
      | ok ht =>
        rw [hrest] at h
        cases h
        rw [List.flatMap_cons,
          hfp a (List.mem_cons_self a t) ha hfa,
          ih ht hrest (fun x hx => hfp x (List.mem_cons_of_mem _ hx))]

/-! ### Characterisations of the source loops -/

theorem subLoop_fold (g : Grid) (dc : Nat) :
    ∀ (rows : List Nat) (acc : List String),
      rows.foldl (subStep g dc) acc
        = acc ++ dedupFirstAux acc (rows.filterMap (subCand g dc)) := by
  intro rows
  induction rows with
  | nil => intro acc; simp [dedupFirstAux]
  | cons r rs ih =>
    intro acc
    rw [List.foldl_cons]
    cases hc : subCand g dc r with
    | none =>
      have hfm : List.filterMap (subCand g dc) (r :: rs)
          = List.filterMap (subCand g dc) rs := by
        simp [List.filterMap_cons, hc]
      rw [hfm]
      have hstep : subStep g dc acc r = acc := by simp [subStep, hc]
      rw [hstep, ih acc]
    | some n =>
      have hfm : List.filterMap (subCand g dc) (r :: rs)
          = n :: List.filterMap (subCand g dc) rs := by
        simp [List.filterMap_cons, hc]
      rw [hfm]
      by_cases hmem : n ∈ acc
      · have hstep : subStep g dc acc r = acc := by simp [subStep, hc, hmem]
        rw [hstep, ih acc, dedupFirstAux, if_pos hmem]
      · have hstep : subStep g dc acc r = acc ++ [n] := by simp [subStep, hc, hmem]
        rw [hstep, ih (acc ++ [n]), dedupFirstAux, if_neg hmem]
        rw [List.append_assoc, List.singleton_append]
        refine congrArg _ (congrArg _ (dedupFirstAux_congr _ _ _ ?_))
        intro x
        simp only [List.mem_append, List.mem_cons, List.mem_singleton]
        tauto

theorem subLoop_eq (g : Grid) (dc : Nat) :
    subLoop g dc = dedupFirst ((List.range' 3 12).filterMap (subCand g dc)) := by
  unfold subLoop dedupFirst
  rw [subLoop_fold g dc (List.range' 3 12) []]
  rfl

theorem compLoop_ok (g : Grid) (row : Nat) :
    ∀ (cols : List Nat) (acc l : List String),
      compLoop g row cols acc = .ok l →
      l = acc ++ cols.filterMap (compCand g row) := by
  intro cols
  induction cols with
  | nil =>
    intro acc l h
    simp only [compLoop] at h
    cases h
    simp
  | cons col rest ih =>
    intro acc l h
    simp only [compLoop] at h
    by_cases h1 : col < g.ncols
    · rw [if_pos h1] at h
      by_cases h2 : pyStrip (pyStr (g.cells row col)) ∈ markers
      · rw [if_pos h2] at h
        by_cases h3 : 15 < g.nrows
        · rw [if_pos h3] at h
          cases hcell : g.cells 15 col with
          | none =>
            simp only [hcell] at h
            have hfm : List.filterMap (compCand g row) (col :: rest)
                = List.filterMap (compCand g row) rest := by
              simp [List.filterMap_cons, compCand, h1, h2, h3, hcell]
            rw [hfm]
            exact ih acc l h
          | some comp =>
            simp only [hcell] at h
            by_cases h4 : pyStrip comp ∉ markers ∧ pyStrip comp ≠ ""
            · rw [if_pos h4] at h
              have hcand : compCand g row col = some (pyStrip comp) := by
                simp only [compCand, if_pos h1, if_pos h2, if_pos h3, hcell]
                rw [if_pos h4]
              have hfm : List.filterMap (compCand g row) (col :: rest)
                  = pyStrip comp :: List.filterMap (compCand g row) rest := by
                simp [List.filterMap_cons, hcand]
              rw [hfm, ih (acc ++ [pyStrip comp]) l h]
              simp
            · rw [if_neg h4] at h
              have hcand : compCand g row col = none := by
                simp only [compCand, if_pos h1, if_pos h2, if_pos h3, hcell]
                rw [if_neg h4]
              have hfm : List.filterMap (compCand g row) (col :: rest)
                  = List.filterMap (compCand g row) rest := by
                simp [List.filterMap_cons, hcand]
              rw [hfm]
              exact ih acc l h
        · rw [if_neg h3] at h
          cases h
      · rw [if_neg h2] at h
        have hfm : List.filterMap (compCand g row) (col :: rest)
            = List.filterMap (compCand g row) rest := by
          simp [List.filterMap_cons, compCand, h1, h2]
        rw [hfm]
        exact ih acc l h
    · rw [if_neg h1] at h
      have hfm : List.filterMap (compCand g row) (col :: rest)
          = List.filterMap (compCand g row) rest := by
        simp [List.filterMap_cons, compCand, h1]
      rw [hfm]
      exact ih acc l h

theorem compColsLoop_ok (g : Grid) (cn : String) :
    ∀ (cols : List Nat) (l : List Nat),
      compColsLoop g cn cols = .ok l → l = cols.filter (cellKeep g cn) := by
  intro cols
  induction cols with
  | nil =>
    intro l h
    simp only [compColsLoop] at h
    cases h
    rfl
  | cons col rest ih =>
    intro l h
    simp only [compColsLoop] at h
    by_cases h1 : 15 < g.nrows ∧ col < g.ncols
    · rw [if_pos h1] at h
      cases hrest : compColsLoop g cn rest with
      | error e => rw [hrest] at h; cases h
      | ok t =>
        rw [hrest] at h
        cases h
        rw [ih t hrest, List.filter_cons]
    · rw [if_neg h1] at h
      cases h

theorem filterMap_ext {α β : Type} (f g : α → Option β) :
    ∀ l : List α, (∀ x ∈ l, f x = g x) → l.filterMap f = l.filterMap g := by
  intro l
  induction l with
  | nil => intro _; rfl
  | cons a t ih =>
    intro h
    rw [List.filterMap_cons, List.filterMap_cons, h a (List.mem_cons_self a t),
      ih (fun x hx => h x (List.mem_cons_of_mem _ hx))]

theorem filterMap_of_filter {α β : Type} (p : α → Bool) (f : α → Option β) :
    ∀ l : List α,
      (l.filter p).filterMap f = l.filterMap (fun x => if p x then f x else none) := by
  intro l
  induction l with
  | nil => rfl
  | cons a t ih =>
    by_cases h : p a = true
    · simp only [List.filter_cons, if_pos h, List.filterMap_cons, ih, h, if_true]
    · have h' : p a = false := Bool.of_not_eq_true h
      simp only [List.filter_cons, h', Bool.false_eq_true, if_false, List.filterMap_cons, ih,
        if_neg h]

/-! ### Inversion of the assemblers -/

theorem analyze_ok_res (g : Grid) (nm : String) (r : AnalysisResult) :
    analyze_defect g nm = .ok (.res r) →
    ∃ dc sous comps params,
      find_defect_column g nm = some dc ∧
      get_sous_ensembles g dc = .ok sous ∧
      exceptConcatMap (get_composants g) sous = .ok comps ∧
      exceptConcatMap (get_parametres g) sous = .ok params ∧
      r = ⟨nm, dc, sous, dedupFirst comps, params⟩ := by
  intro h
  unfold analyze_defect at h
  cases hdc : find_defect_column g nm with
  | none => simp only [hdc] at h; cases h
  | some dc =>
    simp only [hdc] at h
    cases hsous : get_sous_ensembles g dc with
    | error e => simp only [hsous] at h; cases h
    | ok sous =>
      simp only [hsous] at h
      cases hcomps : exceptConcatMap (get_composants g) sous with
      | error e => simp only [hcomps] at h; cases h
      | ok comps =>
        simp only [hcomps] at h
        cases hparams : exceptConcatMap (get_parametres g) sous with
        | error e => simp only [hparams] at h; cases h
        | ok params =>
          simp only [hparams] at h
          cases h
          exact ⟨dc, sous, comps, params, rfl, hsous, hcomps, hparams, rfl⟩

theorem filtered_ok_res (g : Grid) (nm : String) (cs : ColorSource)
    (r : AnalysisResult) (fr : FilteredResult) :
    analyze_defect g nm = .ok (.res r) →
    get_filtered_hierarchy g nm cs = .ok fr →
    ∃ bl,
      exceptConcatMap (bonnesForSe g cs r.defect_column r.composants)
        r.sous_ensembles = .ok bl ∧
      fr = ⟨nm, some r.defect_column, r.sous_ensembles, dedupFirst bl,
        r.parametres.filterMap (fun p =>
          let li := p.components.filter (fun c => decide (c ∈ dedupFirst bl))
          if li ≠ [] then some ⟨p.name, p.value, li⟩ else none)⟩ := by
  intro ha hf
  unfold get_filtered_hierarchy at hf
  simp only [ha] at hf
  cases hbl : exceptConcatMap (bonnesForSe g cs r.defect_column r.composants)
      r.sous_ensembles with
  | error e => simp only [hbl] at hf; cases hf
  | ok bl =>
    simp only [hbl] at hf
    cases hf
    exact ⟨bl, rfl, rfl⟩

/-! ### The two-stage and one-stage linked-component scans agree -/

theorem linked_eq_spec (g : Grid) (srow row : Nat) :
    linkedComponents g (componentCols g srow) row = specLinked g srow row := by
  unfold linkedComponents componentCols specLinked
  rw [filterMap_of_filter]
  refine filterMap_ext _ _ _ ?_
  intro col _
  by_cases h : col < g.ncols ∧ pyStrip (pyStr (g.cells srow col)) ∈ markers
  · have hb : decide (col < g.ncols ∧ pyStrip (pyStr (g.cells srow col)) ∈ markers) = true :=
      decide_eq_true h
    simp only [hb, if_true, specLinkedCand, if_pos h, if_pos h.1]
  · have hb : decide (col < g.ncols ∧ pyStrip (pyStr (g.cells srow col)) ∈ markers) = false :=
      decide_eq_false h
    simp only [hb, Bool.false_eq_true, if_false, specLinkedCand, if_neg h]

theorem paramOfRow_eq_spec (g : Grid) (srow row : Nat) :
    paramOfRow g (componentCols g srow) row = specParamRow g srow row := by
  simp only [paramOfRow, specParamRow, linked_eq_spec]

/-! ### The colour filter under a fully degraded colour source -/

theorem bonnesForComp_ok (g : Grid) (se comp : String) (B : List String) :
    bonnesForComp g csNone se none comp = .ok B →
    B = ((List.range 74).filter (cellKeep g (pyStrip comp))).map (fun _ => comp) := by
  intro h
  unfold bonnesForComp at h
  cases hc : compColsLoop g (pyStrip comp) (List.range 74) with
  | error e => simp only [hc] at h; cases h
  | ok cols =>
    simp only [hc] at h
    cases h
    rw [compColsLoop_ok g (pyStrip comp) _ cols hc]
    have hft : ∀ l : List Nat, l.filter (fun cc => csNone se cc == (none : Option Nat)) = l := by
      intro l
      induction l with
      | nil => rfl
      | cons a t ih => simp [csNone, ih]
    rw [hft]

theorem bonnesForSe_ok (g : Grid) (dc : Nat) (comps : List String) (se : String)
    (B : List String) :
    bonnesForSe g csNone dc comps se = .ok B →
    B = comps.flatMap (fun comp =>
      ((List.range 74).filter (cellKeep g (pyStrip comp))).map (fun _ => comp)) := by
  intro h
  unfold bonnesForSe at h
  exact ecm_eq_flatMap _ _ comps B h (fun comp _ o ho => bonnesForComp_ok g se comp o ho)

theorem bonnesAll_ok (g : Grid) (dc : Nat) (comps : List String)
    (sous bl : List String) :
    exceptConcatMap (bonnesForSe g csNone dc comps) sous = .ok bl →
    bl = sous.flatMap (fun _ => comps.flatMap (fun comp =>
      ((List.range 74).filter (cellKeep g (pyStrip comp))).map (fun _ => comp))) :=
  fun h => ecm_eq_flatMap _ _ sous bl h (fun se _ o ho => bonnesForSe_ok g dc comps se o ho)

/-- Every component returned by `get_composants` has at least one column in
0–73 whose row-15 cell trims to it: the column it was read from. -/
theorem comp_qual (g : Grid) (se : String) (lse : List String) (comp : String) :
    get_composants g se = .ok lse → comp ∈ lse →
    ∃ c, c < 74 ∧ cellKeep g (pyStrip comp) c = true := by
  intro h hmem
  unfold get_composants at h
  cases hfs : findSubRow g se (List.range' 3 11) with
  | error e => simp only [hfs] at h; cases h
  | ok o =>
    simp only [hfs] at h
    cases o with
    | none =>
      cases h
      exact absurd hmem (List.not_mem_nil comp)
    | some srow =>
      have hl : lse = [] ++ (List.range 74).filterMap (compCand g srow) :=
        compLoop_ok g srow _ [] lse h
      rw [List.nil_append] at hl
      rw [hl] at hmem
      rcases List.mem_filterMap.1 hmem with ⟨c, hc, hcand⟩
      unfold compCand at hcand
      by_cases h1 : c < g.ncols
      · rw [if_pos h1] at hcand
        by_cases h2 : pyStrip (pyStr (g.cells srow c)) ∈ markers
        · rw [if_pos h2] at hcand
          by_cases h3 : 15 < g.nrows
          · rw [if_pos h3] at hcand
            cases hcell : g.cells 15 c with
            | none => simp only [hcell] at hcand; cases hcand
            | some cc =>
              simp only [hcell] at hcand
              by_cases h4 : pyStrip cc ∉ markers ∧ pyStrip cc ≠ ""
              · rw [if_pos h4] at hcand
                have hcomp : pyStrip cc = comp := Option.some.inj hcand
                refine ⟨c, List.mem_range.1 hc, ?_⟩
                unfold cellKeep
                rw [hcell, ← hcomp, pyStrip_idem]
                exact beq_self_eq_true (pyStrip cc)
              · rw [if_neg h4] at hcand
                cases hcand
          · rw [if_neg h3] at hcand
            cases hcand
        · rw [if_neg h2] at hcand
          cases hcand
      · rw [if_neg h1] at hcand
        cases hcand

theorem filterMap_eq_nil_of {α β : Type} (f : α → Option β) :
    ∀ l : List α, (∀ x ∈ l, f x = none) → l.filterMap f = [] := by
  intro l
  induction l with
  | nil => intro _; rfl
  | cons a t ih =>
    intro h
    rw [List.filterMap_cons, h a (List.mem_cons_self a t),
      ih (fun x hx => h x (List.mem_cons_of_mem _ hx))]

theorem filterMap_param_filter (bs : List String) :
    ∀ l : List Param,
      l.filterMap (fun p =>
          let li := p.components.filter (fun c => decide (c ∈ bs))
          if li ≠ [] then some (⟨p.name, p.value, li⟩ : Param) else none)
        = (l.map (fun p =>
            (⟨p.name, p.value,
              p.components.filter (fun c => decide (c ∈ bs))⟩ : Param))).filter
            (fun p => !p.components.isEmpty) := by
  intro l
  induction l with
  | nil => rfl
  | cons p t ih =>
    rw [List.filterMap_cons, List.map_cons, List.filter_cons]
    by_cases h : p.components.filter (fun c => decide (c ∈ bs)) = []
    · simp only [h, ne_eq, not_true_eq_false, if_false, List.isEmpty_nil, Bool.not_true,
        Bool.false_eq_true, ih]
    · simp only [h, ne_eq, not_false_eq_true, if_true, ih]
      have hne : (p.components.filter (fun c => decide (c ∈ bs))).isEmpty = false := by
        cases hl : p.components.filter (fun c => decide (c ∈ bs)) with
        | nil => exact absurd hl h
        | cons a t2 => rfl
      simp only [hne, Bool.not_false, if_true]

/-! ### The claims -/

/-- C2 counterexample: `find_defect_column` is not restricted to columns
78 and later — on a single-column grid whose (15, 0) cell is "Crack",
`locate("crack")` returns column 0, although no cell at column ≥ 78 exists. -/
theorem c2_counterexample : find_defect_column g2 "crack" = some 0 ∧ ¬ 78 ≤ 0 :=
  ⟨by rfl, by decide⟩

/-- C2 (amended): `find_defect_column` scans the whole defect row (row 15),
with no minimum column, and matches case-insensitively by substring
containment of the name in the cell's raw (untrimmed) stringified text; it
returns `some c` exactly when row 15 exists, `c` is an in-range column
matching the name, and no smaller column matches; `none` otherwise. -/
theorem c2_locate (g : Grid) (name : String) (c : Nat) :
    find_defect_column g name = some c ↔
      15 < g.nrows ∧ c < g.ncols ∧ defMatchB g name c = true ∧
        ∀ k, k < c → defMatchB g name k = false := by
  unfold find_defect_column
  by_cases h : 15 < g.nrows
  · rw [if_pos h, find?_range]
    constructor
    · rintro ⟨h1, h2, h3⟩
      exact ⟨h, h1, h2, h3⟩
    · rintro ⟨_, h1, h2, h3⟩
      exact ⟨h1, h2, h3⟩
  · rw [if_neg h]
    constructor
    · intro hc
      cases hc
    · rintro ⟨h1, _⟩
      exact absurd h1 h

/-- C2 witness: the characterisation applied at the concrete grid `g2`. -/
theorem c2_witness :
    15 < g2.nrows ∧ 0 < g2.ncols ∧ defMatchB g2 "crack" 0 = true ∧
      ∀ k, k < 0 → defMatchB g2 "crack" k = false :=
  (c2_locate g2 "crack" 0).mp (by rfl)

/-- C3: the claim that every resolver is total fails — on a 5-row, 76-column
grid the fallback of `get_sous_ensembles` performs the unguarded read
`iloc[13, 75]` (column bound checked, row bound not) and raises. -/
theorem c3_small_grid_raises : get_sous_ensembles gSmall 0 = .error () := by rfl

/-- C4: the marker loop of sub-assembly resolution over rows 3–14 equals
first-occurrence deduplication of the trimmed labels of the rows whose
defect-column cell trims to `ç` (in row order, empty labels dropped), and
every successful `get_sous_ensembles` result has no duplicates. -/
theorem c4_sous_dedup (g : Grid) (dc : Nat) :
    subLoop g dc = dedupFirst ((List.range' 3 12).filterMap (subCand g dc)) ∧
    ∀ l, get_sous_ensembles g dc = .ok l → l.Nodup := by
  refine ⟨subLoop_eq g dc, ?_⟩
  intro l h
  simp only [get_sous_ensembles] at h
  by_cases he : (subLoop g dc).isEmpty = true
  · rw [if_pos he] at h
    by_cases h75 : 75 < g.ncols
    · rw [if_pos h75] at h
      by_cases h13 : 13 < g.nrows
      · rw [if_pos h13] at h
        cases hcell : g.cells 13 75 with
        | some t =>
          simp only [hcell] at h
          cases h
          exact List.nodup_singleton _
        | none =>
          simp only [hcell] at h
          cases h
          exact List.nodup_nil
      · rw [if_neg h13] at h
        cases h
    · rw [if_neg h75] at h
      cases h
      exact List.nodup_nil
  · rw [if_neg he] at h
    cases h
    rw [subLoop_eq g dc]
    exact nodup_dedupFirstAux _ _

/-- C4 witness: on `g10` at defect column 78 the resolver returns the two
distinct sub-assemblies in row order. -/
theorem c4_witness :
    get_sous_ensembles g10 78 = .ok ["Housing", "Frame"] ∧
      (["Housing", "Frame"] : List String).Nodup :=
  ⟨by rfl, (c4_sous_dedup g10 78).2 ["Housing", "Frame"] (by rfl)⟩

/-- C5 counterexample: the fallback appends the trimmed (13, 75) label
whenever the cell is present, even when it trims to the empty string — on
`gc5` (cell (13, 75) holds a single space) the result is `[""]`, not `[]`. -/
theorem c5_counterexample :
    get_sous_ensembles gc5 0 = .ok [""] ∧ gc5.cells 13 75 = some " " ∧
      pyStrip " " = "" :=
  ⟨by rfl, by rfl, by rfl⟩

/-- C5 (amended): when the marker loop finds nothing and the fallback cell
(13, 75) is readable, the result is the one-element list of the trimmed
label whenever the cell is present (even when the trimmed label is empty),
and the empty list exactly when the cell is absent; the fallback is taken
only when the marker loop found nothing. -/
theorem c5_fallback (g : Grid) (dc : Nat) :
    (subLoop g dc = [] → 75 < g.ncols → 13 < g.nrows →
      get_sous_ensembles g dc
        = .ok (match g.cells 13 75 with
               | some t => [pyStrip t]
               | none => ([] : List String))) ∧
    (subLoop g dc ≠ [] → get_sous_ensembles g dc = .ok (subLoop g dc)) := by
  constructor
  · intro hempty h75 h13
    cases hcell : g.cells 13 75 with
    | some t =>
      simp only [get_sous_ensembles, hempty, List.isEmpty_nil, if_true, if_pos h75,
        if_pos h13, hcell]
    | none =>
      simp only [get_sous_ensembles, hempty, List.isEmpty_nil, if_true, if_pos h75,
        if_pos h13, hcell]
  · intro hne
    have he : (subLoop g dc).isEmpty = false := by
      cases hsl : subLoop g dc with
      | nil => exact absurd hsl hne
      | cons a t => rfl
    simp only [get_sous_ensembles, he, Bool.false_eq_true, if_false]

/-- C5 witness: the fallback applied on `gc5` at defect column 0. -/
theorem c5_witness :
    subLoop gc5 0 = [] ∧ 75 < gc5.ncols ∧ 13 < gc5.nrows ∧
      get_sous_ensembles gc5 0 = .ok [""] :=
  ⟨by rfl, by decide, by decide, (c5_fallback gc5 0).1 (by rfl) (by decide) (by decide)⟩

/-- C6 counterexample: emission requires more than a non-empty name and a
non-empty linked list — on `gc6`, parameter row 17 has the non-empty name
`ç` and the non-empty linked list `["Bolt"]`, yet no parameter is emitted,
because the name is one of the four marker strings. -/
theorem c6_counterexample :
    get_parametres gc6 "Housing" = .ok [] ∧
    findSubRow gc6 "Housing" (List.range' 3 11) = .ok (some 3) ∧
    gc6.cells 17 75 = some "ç" ∧ pyStrip "ç" ≠ "" ∧
    linkedComponents gc6 (componentCols gc6 3) 17 = ["Bolt"] :=
  ⟨by rfl, by rfl, by rfl, by decide, by rfl⟩

/-- C6 (amended): for a non-empty sub-assembly name whose row is found,
`get_parametres` scans rows 17 to the end; per row the linked-components
list collects, over columns 0–73 that are marker columns of the
sub-assembly row, the row-15 names of cells trimming to `è`/`ê` (skipping
empty and marker names); a parameter (trimmed name, trimmed value, empty
when absent, linked components in column order) is emitted iff the linked
list is non-empty AND the trimmed name is non-empty AND the name is not
itself a marker string; rows are in order, one parameter per row at most. -/
theorem c6_parametres (g : Grid) (name : String) (srow : Nat)
    (hname : name ≠ "")
    (hfind : findSubRow g name (List.range' 3 11) = .ok (some srow)) :
    get_parametres g name = .ok (specParams g srow) := by
  unfold get_parametres
  rw [if_neg hname]
  simp only [hfind]
  unfold specParams
  exact congrArg Except.ok
    (filterMap_ext _ _ _ (fun row _ => paramOfRow_eq_spec g srow row))

/-- C6 witness: the characterisation applied on `g10` for "Housing". -/
theorem c6_witness :
    ("Housing" : String) ≠ "" ∧
    findSubRow g10 "Housing" (List.range' 3 11) = .ok (some 3) ∧
    get_parametres g10 "Housing" = .ok (specParams g10 3) ∧
    specParams g10 3 = [⟨"Torque", "10Nm", ["Bolt"]⟩] :=
  ⟨by decide, by rfl, c6_parametres g10 "Housing" 3 (by decide) (by rfl), by rfl⟩

/-- C7: a successful `get_composants` run returns `[]` when no row 3–13
carries the sub-assembly label, and otherwise exactly the row-15 names of
the columns 0–73 whose cell at the found row trims to one of the four
markers (non-empty, non-marker names only, in column order); in particular
a sub-assembly row with no marker cell in columns 0–73 yields `[]`. -/
theorem c7_composants (g : Grid) (name : String) (l : List String)
    (h : get_composants g name = .ok l) :
    (findSubRow g name (List.range' 3 11) = .ok none → l = []) ∧
    (∀ srow, findSubRow g name (List.range' 3 11) = .ok (some srow) →
      l = (List.range 74).filterMap (compCand g srow)) ∧
    (∀ srow, findSubRow g name (List.range' 3 11) = .ok (some srow) →
      (∀ c, c < 74 → pyStrip (pyStr (g.cells srow c)) ∉ markers) → l = []) := by
  have hmain : ∀ srow, findSubRow g name (List.range' 3 11) = .ok (some srow) →
      l = (List.range 74).filterMap (compCand g srow) := by
    intro srow hfs
    unfold get_composants at h
    simp only [hfs] at h
    have h2 := compLoop_ok g srow (List.range 74) [] l h
    rwa [List.nil_append] at h2
  refine ⟨?_, hmain, ?_⟩
  · intro hfs
    unfold get_composants at h
    simp only [hfs] at h
    cases h
    rfl
  · intro srow hfs hnom
    rw [hmain srow hfs]
    refine filterMap_eq_nil_of _ _ ?_
    intro c hc
    have hcm : pyStrip (pyStr (g.cells srow c)) ∉ markers := hnom c (List.mem_range.1 hc)
    unfold compCand
    by_cases h1 : c < g.ncols
    · rw [if_pos h1, if_neg hcm]
    · rw [if_neg h1]

/-- C7 witness: on `g10`, "Housing" resolves to row 3 and the single marked
component "Bolt". -/
theorem c7_witness :
    get_composants g10 "Housing" = .ok ["Bolt"] ∧
    findSubRow g10 "Housing" (List.range' 3 11) = .ok (some 3) ∧
    (["Bolt"] : List String) = (List.range 74).filterMap (compCand g10 3) :=
  ⟨by rfl, by rfl,
    (c7_composants g10 "Housing" ["Bolt"] (by rfl)).2.1 3 (by rfl)⟩

/-- C8: when the defect name is not located, `analyze_defect` returns the
error-tagged value (no exception), and `get_filtered_hierarchy` returns a
well-formed result with the defect name, no column and empty lists — for
any colour source. -/
theorem c8_notfound (g : Grid) (nm : String) (cs : ColorSource)
    (h : find_defect_column g nm = none) :
    analyze_defect g nm = .ok (.err nm) ∧
    get_filtered_hierarchy g nm cs = .ok ⟨nm, none, [], [], []⟩ := by
  have ha : analyze_defect g nm = .ok (.err nm) := by
    unfold analyze_defect
    simp only [h]
  refine ⟨ha, ?_⟩
  unfold get_filtered_hierarchy
  simp only [ha]

/-- C8 witness: the not-found path on the empty grid. -/
theorem c8_witness :
    find_defect_column gEmpty "x" = none ∧
    analyze_defect gEmpty "x" = .ok (.err "x") ∧
    get_filtered_hierarchy gEmpty "x" csNone = .ok ⟨"x", none, [], [], []⟩ :=
  ⟨by rfl, (c8_notfound gEmpty "x" csNone (by rfl)).1,
    (c8_notfound gEmpty "x" csNone (by rfl)).2⟩

/-- C10: the unfiltered parameter list concatenates per-sub-assembly
resolutions without deduplication — on `g10` the two sub-assemblies
"Housing" and "Frame" both link parameter row 17 through column 10, so the
same parameter appears twice in `analyze_defect`'s output, while the
sub-assembly and (deduplicated) component lists carry no duplicates. -/
theorem c10_params_not_dedup :
    get_parametres g10 "Housing" = .ok [⟨"Torque", "10Nm", ["Bolt"]⟩] ∧
    get_parametres g10 "Frame" = .ok [⟨"Torque", "10Nm", ["Bolt"]⟩] ∧
    analyze_defect g10 "Crack"
      = .ok (.res ⟨"Crack", 78, ["Housing", "Frame"], ["Bolt"],
          [⟨"Torque", "10Nm", ["Bolt"]⟩, ⟨"Torque", "10Nm", ["Bolt"]⟩]⟩) ∧
    (["Housing", "Frame"] : List String).Nodup ∧
    ¬ ([(⟨"Torque", "10Nm", ["Bolt"]⟩ : Param),
        ⟨"Torque", "10Nm", ["Bolt"]⟩] : List Param).Nodup :=
  ⟨by rfl, by rfl, by rfl, by decide, by decide⟩

/-- C1 counterexample: with a fully degraded colour source the validated
component list is NOT empty — on `g10` it contains "Bolt", because
`None == None` holds, so every colour comparison succeeds. -/
theorem c1_counterexample :
    get_filtered_hierarchy g10 "Crack" csNone
      = .ok ⟨"Crack", some 78, ["Housing", "Frame"], ["Bolt"],
          [⟨"Torque", "10Nm", ["Bolt"]⟩, ⟨"Torque", "10Nm", ["Bolt"]⟩]⟩ ∧
    (["Bolt"] : List String) ≠ [] :=
  ⟨by rfl, by decide⟩

/-- C1 (amended): with a fully degraded colour source every lookup returns
Unknown and `Unknown == Unknown` holds, so the validated component list of
`get_filtered_hierarchy` equals the full unfiltered deduplicated component
list of `analyze_defect` (which itself consults no colour information). -/
theorem c1_degraded_validates_all (g : Grid) (nm : String)
    (r : AnalysisResult) (fr : FilteredResult)
    (ha : analyze_defect g nm = .ok (.res r))
    (hf : get_filtered_hierarchy g nm csNone = .ok fr) :
    fr.bonnes_composants = r.composants := by
  rcases filtered_ok_res g nm csNone r fr ha hf with ⟨bl, hbl, hfr⟩
  rcases analyze_ok_res g nm r ha with ⟨dc, sous, comps, params, hdc, hsous, hcomps, hparams, hr⟩
  subst hr
  rw [hfr]
  show dedupFirst bl = dedupFirst comps
  dsimp only at hbl
  have hblv := bonnesAll_ok g dc (dedupFirst comps) sous bl hbl
  have hnodup : (dedupFirst comps).Nodup := nodup_dedupFirstAux comps []
  have hqual : ∀ comp ∈ dedupFirst comps,
      ∃ c, c < 74 ∧ cellKeep g (pyStrip comp) c = true := by
    intro comp hcm
    have hcm' : comp ∈ comps := ((mem_dedupFirstAux comp comps []).1 hcm).1
    rcases ecm_ok_mem (get_composants g) sous comps comp hcomps hcm' with
      ⟨se, hse, lse, hlse, hmemse⟩
    exact comp_qual g se lse comp hlse hmemse
  cases sous with
  | nil =>
    have hc0 : comps = [] := by
      simp only [exceptConcatMap] at hcomps
      exact (Except.ok.inj hcomps).symm
    rw [hblv, hc0]
    rfl
  | cons s ss =>
    rw [hblv, List.flatMap_cons]
    have h1 : dedupFirstAux []
        ((dedupFirst comps).flatMap (fun comp =>
          ((List.range 74).filter (cellKeep g (pyStrip comp))).map (fun _ => comp)))
        = dedupFirst comps := by
      refine dedupFirstAux_bind_const (dedupFirst comps) _ [] hnodup
        (fun c _ => List.not_mem_nil c) ?_
      intro c hc
      constructor
      · rcases hqual c hc with ⟨col, hcol, hk⟩
        intro hnil
        rw [List.map_eq_nil_iff] at hnil
        have hcolmem : col ∈ (List.range 74).filter (cellKeep g (pyStrip c)) :=
          List.mem_filter.2 ⟨List.mem_range.2 hcol, hk⟩
        rw [hnil] at hcolmem
        exact absurd hcolmem (List.not_mem_nil col)
      · intro x hx
        rcases List.mem_map.1 hx with ⟨a, _, hax⟩
        exact hax.symm
    have h2 : dedupFirstAux
        ((dedupFirst comps).flatMap (fun comp =>
          ((List.range 74).filter (cellKeep g (pyStrip comp))).map (fun _ => comp)) ++ [])
        (ss.flatMap (fun _ => (dedupFirst comps).flatMap (fun comp =>
          ((List.range 74).filter (cellKeep g (pyStrip comp))).map (fun _ => comp))))
        = [] := by
      refine dedupFirstAux_eq_nil _ _ ?_
      intro x hx
      rcases List.mem_flatMap.1 hx with ⟨se2, hse2, hxB⟩
      exact List.mem_append.2 (Or.inl hxB)
    show dedupFirstAux []
        ((dedupFirst comps).flatMap (fun comp =>
          ((List.range 74).filter (cellKeep g (pyStrip comp))).map (fun _ => comp)) ++
         ss.flatMap (fun _ => (dedupFirst comps).flatMap (fun comp =>
          ((List.range 74).filter (cellKeep g (pyStrip comp))).map (fun _ => comp))))
      = dedupFirst comps
    rw [dedupFirstAux_append, h1, h2, List.append_nil]

/-- C1 witness: the amended claim instantiated on `g10`, where the degraded
colour source validates exactly the unfiltered component list `["Bolt"]`. -/
theorem c1_witness :
    analyze_defect g10 "Crack"
      = .ok (.res ⟨"Crack", 78, ["Housing", "Frame"], ["Bolt"],
          [⟨"Torque", "10Nm", ["Bolt"]⟩, ⟨"Torque", "10Nm", ["Bolt"]⟩]⟩) ∧
    get_filtered_hierarchy g10 "Crack" csNone
      = .ok ⟨"Crack", some 78, ["Housing", "Frame"], ["Bolt"],
          [⟨"Torque", "10Nm", ["Bolt"]⟩, ⟨"Torque", "10Nm", ["Bolt"]⟩]⟩ ∧
    (⟨"Crack", some 78, ["Housing", "Frame"], ["Bolt"],
        [⟨"Torque", "10Nm", ["Bolt"]⟩,
         ⟨"Torque", "10Nm", ["Bolt"]⟩]⟩ : FilteredResult).bonnes_composants
      = (⟨"Crack", 78, ["Housing", "Frame"], ["Bolt"],
          [⟨"Torque", "10Nm", ["Bolt"]⟩,
           ⟨"Torque", "10Nm", ["Bolt"]⟩]⟩ : AnalysisResult).composants :=
  ⟨by rfl, by rfl,
    c1_degraded_validates_all g10 "Crack" _ _ (by rfl) (by rfl)⟩

/-- C9: in a successful filtered hierarchy the parameter list is exactly
the unfiltered parameters, in order, each with its linked-components list
reduced to the members validated by the colour filter, keeping only the
parameters whose reduced list is non-empty. -/
theorem c9_param_filter (g : Grid) (nm : String) (cs : ColorSource)
    (r : AnalysisResult) (fr : FilteredResult)
    (ha : analyze_defect g nm = .ok (.res r))
    (hf : get_filtered_hierarchy g nm cs = .ok fr) :
    fr.parametres
      = (r.parametres.map (fun p =>
          (⟨p.name, p.value,
            p.components.filter (fun c => decide (c ∈ fr.bonnes_composants))⟩ : Param))).filter
          (fun p => !p.components.isEmpty) := by
  rcases filtered_ok_res g nm cs r fr ha hf with ⟨bl, hbl, hfr⟩
  subst hfr
  dsimp only
  exact filterMap_param_filter (dedupFirst bl) r.parametres

/-- C9 witness: on `g10` with the degraded colour source both parameter
entries survive intact (their single linked component "Bolt" is validated). -/
theorem c9_witness :
    get_filtered_hierarchy g10 "Crack" csNone
      = .ok ⟨"Crack", some 78, ["Housing", "Frame"], ["Bolt"],
          [⟨"Torque", "10Nm", ["Bolt"]⟩, ⟨"Torque", "10Nm", ["Bolt"]⟩]⟩ ∧
    (⟨"Crack", some 78, ["Housing", "Frame"], ["Bolt"],
        [⟨"Torque", "10Nm", ["Bolt"]⟩,
         ⟨"Torque", "10Nm", ["Bolt"]⟩]⟩ : FilteredResult).parametres
      = (((⟨"Crack", 78, ["Housing", "Frame"], ["Bolt"],
          [⟨"Torque", "10Nm", ["Bolt"]⟩,
           ⟨"Torque", "10Nm", ["Bolt"]⟩]⟩ : AnalysisResult)).parametres.map (fun p =>
          (⟨p.name, p.value,
            p.components.filter (fun c => decide (c ∈
              (⟨"Crack", some 78, ["Housing", "Frame"], ["Bolt"],
                [⟨"Torque", "10Nm", ["Bolt"]⟩,
                 ⟨"Torque", "10Nm", ["Bolt"]⟩]⟩ : FilteredResult).bonnes_composants))⟩ :
            Param))).filter
          (fun p => !p.components.isEmpty) :=
  ⟨by rfl,
    c9_param_filter g10 "Crack" csNone _ _ (by rfl) (by rfl)⟩

end QX
